import Mathlib

/-!
Verification development for an HTTP/1.1 file server (request-handling
engine and encoding cache).  The definitions below are a shallow
embedding of the Rust source: `src/ops/mod.rs` (request handlers),
`src/ops/prune.rs` (cache pruner) and `src/util/mod.rs` (path and
header utilities).  Machine integers (`u64`) are modelled as `Nat`
with explicit wrapping where the source can overflow; filesystem
state is modelled as a finite map from absolute, normalised paths to
nodes; fallible operations return `Option`.
-/

/- ===================== basic u64 arithmetic model ===================== -/

/-- Modulus of the `u64` type. -/
def U64MOD : Nat := 2 ^ 64

/-- Largest `u64` value, `u64::MAX`.  Used by the rejected-sentinel cache
entries (`src/ops/mod.rs` line 712). -/
def uMAX : Nat := 2 ^ 64 - 1

/-- Wrapping subtraction on `u64` values (release-mode Rust `a - b`);
both arguments are assumed `< 2^64`. -/
def usub (a b : Nat) : Nat := if b ≤ a then a - b else U64MOD - (b - a)

/- ===================== conditional GET (C2) ===================== -/

/-- The request's `If-None-Match` header as hyper parses it:
absent, `*` (`IfNoneMatch::Any`), or a list of entity tags
(`IfNoneMatch::Items`).  Tags are compared by their opaque value
(`EntityTag::tag()`), so weakness is irrelevant and tags are plain
strings here. -/
inductive InmHeader
  | absent
  | star
  | items (tags : List String)
deriving DecidableEq

/-- Embedding of `HttpHandler::etag_match` (`src/ops/mod.rs` lines
443-445): some request tag's opaque value equals the computed etag. -/
def etagMatch (tags : List String) (etag : String) : Bool :=
  tags.any (fun t => t = etag)

/-- Embedding of `HttpHandler::should_304_path` (`src/ops/mod.rs` lines
447-460).  `ims` is the `If-Modified-Since` timestamp in whole seconds
(`to_timespec().sec`), `mtimeSec` the file's mtime in whole seconds.
The `else` of the source's `if let Some(IfNoneMatch::Items(..))` is
taken both when the header is absent and when it is `*`. -/
def should304 (inm : InmHeader) (ims : Option Int) (mtimeSec : Int)
    (etag : String) : Bool :=
  match inm with
  | .items tags => etagMatch tags etag
  | .absent | .star =>
      match ims with
      | some since => decide (mtimeSec ≤ since)
      | none => false

/-- The conditional-GET policy in the words of the specification claim:
304 iff the `If-None-Match` list contains the computed ETag, or no
`If-None-Match` header is present at all and `If-Modified-Since` is ≥
the file's second-truncated mtime. -/
def spec304 (inm : InmHeader) (ims : Option Int) (mtimeSec : Int)
    (etag : String) : Bool :=
  (match inm with
   | .items tags => etagMatch tags etag
   | _ => false) ||
  (match inm, ims with
   | .absent, some since => decide (mtimeSec ≤ since)
   | _, _ => false)

/- ===================== pruner: TTL clock gate (C10) ===================== -/

/-- Embedding of the `prune_interval` computation in `PruneChain::new`
(`src/ops/prune.rs` line 29): `(encoded_prune.unwrap_or(0) / 6).max(10)`
seconds. -/
def pruneIntervalOf (encodedPrune : Option Nat) : Nat :=
  max ((encodedPrune.getD 0) / 6) 10

/-- Embedding of the TTL-phase clock gate of `PruneChain::prune`
(`src/ops/prune.rs` lines 87-93): swap the last-prune timestamp to the
current time `now` (ns), and run the sweep iff the previous value is
older by at least `interval` seconds.  Returns (sweep ran?, new
last-prune state). -/
def ttlSwapStep (lastPrune now interval : Nat) : Bool × Nat :=
  (decide (lastPrune < now) &&
     decide ((now - lastPrune) / 1000 / 1000 / 1000 ≥ interval),
   now)

/-- Sequential invocations of the TTL clock gate at the given monotone
times, threading the last-prune timestamp; yields whether each
invocation ran the sweep. -/
def ttlSweepsAux (interval : Nat) : Nat → List Nat → List Bool
  | _, [] => []
  | lastPrune, t :: ts =>
      let s := ttlSwapStep lastPrune t interval
      s.1 :: ttlSweepsAux interval s.2 ts

/-- The sweep decisions for a stream of prune invocations starting from
the initial `last_prune = 0` (`src/ops/prune.rs` line 30). -/
def ttlSweeps (interval : Nat) (times : List Nat) : List Bool :=
  ttlSweepsAux interval 0 times

/- ===================== pruner: filesystem size cap (C3, C4) ===================== -/

/-- One entry of the filesystem encoding cache
(`HashMap<(blake3::Hash, String), ((PathBuf, bool, u64), AtomicU64)>`,
`src/ops/mod.rs` line 138): key = (content hash, encoding name), value
= (artifact path, present flag, size) plus an atomic access time. -/
structure FsCacheEntry where
  keyHash : Nat
  keyEnc : String
  path : String
  present : Bool
  size : Nat
  atime : Nat
deriving DecidableEq

/-- The key of a cache entry, as the source's `cache.remove(&key)`
identifies entries. -/
def entryKey (e : FsCacheEntry) : Nat × String := (e.keyHash, e.keyEnc)

/-- The rejected sentinel inserted when an encoding attempt fails the
minimum-gain ratio or exceeds the filesystem limit (`src/ops/mod.rs`
line 712): `((PathBuf::new(), false, 0), AtomicU64::new(u64::MAX))`. -/
def rejectSentinel (keyHash : Nat) (keyEnc : String) : FsCacheEntry :=
  { keyHash := keyHash, keyEnc := keyEnc, path := "", present := false,
    size := 0, atime := uMAX }

/-- Embedding of the rejection branch of `handle_get_file_encoded`
(`src/ops/mod.rs` lines 710-713): the sentinel is inserted into the
filesystem cache under the request's cache key. -/
def insertRejected (cache : List FsCacheEntry) (keyHash : Nat)
    (keyEnc : String) : List FsCacheEntry :=
  rejectSentinel keyHash keyEnc :: cache

/-- Embedding of `cache.iter().min_by_key(|i| atime)` (`src/ops/prune.rs`
line 49): the first entry with minimal atime (Rust's `min_by_key`
returns the first of several equal minima; `HashMap` iteration order is
arbitrary and is modelled by the list order). -/
def minByAtime : List FsCacheEntry → Option FsCacheEntry
  | [] => none
  | e :: es => some (es.foldl (fun a b => if b.atime < a.atime then b else a) e)

/-- Embedding of `cache.remove(&key)` on the model cache: drop the first
entry with the given key. -/
def eraseKey : List FsCacheEntry → Nat × String → List FsCacheEntry
  | [], _ => []
  | e :: es, k => if entryKey e = k then es else e :: eraseKey es k

/-- Embedding of the size-cap eviction loop of `PruneChain::prune`
(`src/ops/prune.rs` lines 48-61): while `size - freed > limit`, delete
the file of the minimal-atime entry (`delOk` is the outcome of
`fs::remove_file` for each path); on failure stop; on success remove
the map entry, add its size to `freed` and record its content hash.
The loop removes an entry per iteration, so `fuel = cache.length`
bounds it exactly. -/
def pruneFsGo (delOk : String → Bool) (size limit : Nat) :
    Nat → Nat → List FsCacheEntry → List Nat →
    (List FsCacheEntry × Nat × List Nat)
  | 0, freed, cache, hashes => (cache, freed, hashes)
  | fuel + 1, freed, cache, hashes =>
      if usub size freed > limit then
        match minByAtime cache with
        | none => (cache, freed, hashes)
        | some e =>
            if delOk e.path then
              pruneFsGo delOk size limit fuel (freed + e.size)
                (eraseKey cache (entryKey e)) (e.keyHash :: hashes)
            else (cache, freed, hashes)
      else (cache, freed, hashes)

/-- The whole filesystem size-cap phase (`src/ops/prune.rs` lines
40-64): run the eviction loop, then subtract the total freed size from
the aggregate counter (`cache_fs_size.fetch_sub(freed_fs)`).  Returns
(new cache, new aggregate size, hashes of removed entries). -/
def pruneFsPhase (delOk : String → Bool) (size limit : Nat)
    (cache : List FsCacheEntry) : List FsCacheEntry × Nat × List Nat :=
  let r := pruneFsGo delOk size limit cache.length 0 cache []
  (r.1, usub size r.2.1, r.2.2)

/-- Sum of the sizes of the present entries of the cache; the source
invariant (spec §3) is that the aggregate counter equals this. -/
def sumPresent (cache : List FsCacheEntry) : Nat :=
  (cache.filter (fun e => e.present)).foldr (fun e n => e.size + n) 0

/-- Embedding of the per-entry TTL retention test of the sweep
(`src/ops/prune.rs` line 100): keep the entry iff its atime is in the
future of `start` or at most `limit` seconds old. -/
def ttlKeep (atime start limit : Nat) : Bool :=
  decide (atime > start) || decide ((start - atime) / 1000 / 1000 / 1000 ≤ limit)

/- ===================== auth gate (C5) ===================== -/

/-- URL path as a character list (the source works on `&str` slices of
the URL path). -/
abbrev PathStr := List Char

/-- Credential pair: username and optional password, as stored in
`path_auth_data` / `global_auth_data` (`src/ops/mod.rs` lines 127-128). -/
abbrev Cred := String × Option String

/-- The per-path policy map `BTreeMap<String, Option<(String, Option<String>)>>`;
exact-key lookup is all the source uses. -/
abbrev AuthMap := List (PathStr × Option Cred)

/-- Exact-key lookup in the per-path policy map (`path_auth_data.get`). -/
def mapFind : AuthMap → PathStr → Option (Option Cred)
  | [], _ => none
  | (k, v) :: rest, p => if k = p then some v else mapFind rest p

/-- Strip one leading slash (`src/ops/mod.rs` lines 290-292). -/
def stripLead : PathStr → PathStr
  | '/' :: r => r
  | p => p

/-- Strip one trailing slash (`src/ops/mod.rs` lines 293-295). -/
def stripTrail (p : PathStr) : PathStr :=
  if p.getLast? = some '/' then p.dropLast else p

/-- Index of the last `'/'` in the path, `path.rfind('/')`. -/
def rfindSlash (p : PathStr) : Option Nat :=
  if h : '/' ∈ p.reverse then
    some (p.length - 1 - p.reverse.findIdx (fun c => c = '/'))
  else none

/-- One step of the prefix loop: `path = &path[..path.rfind('/').unwrap_or(0)]`
(`src/ops/mod.rs` line 303). -/
def dropSeg (p : PathStr) : PathStr :=
  p.take ((rfindSlash p).getD 0)

/-- The prefix-matching loop of `HttpHandler::verify_auth`
(`src/ops/mod.rs` lines 297-304), with explicit fuel: try the path,
then repeatedly drop the final `/…` segment; the first value present
in the per-path map wins; if the path empties, keep the global policy.
Each step strictly shortens the path, so fuel `p.length + 1` runs the
loop to completion. -/
def authLoopGo (m : AuthMap) (global : Option Cred) : Nat → PathStr →
    Option Cred
  | 0, _ => global
  | fuel + 1, p =>
      if p = [] then global
      else
        match mapFind m p with
        | some v => v
        | none => authLoopGo m global fuel (dropSeg p)

/-- The prefix-matching loop at full fuel. -/
def authLoop (m : AuthMap) (global : Option Cred) (p : PathStr) : Option Cred :=
  authLoopGo m global (p.length + 1) p

/-- The chain of candidate prefixes the loop inspects, longest first,
with explicit fuel. -/
def authChainGo : Nat → PathStr → List PathStr
  | 0, _ => []
  | fuel + 1, p => if p = [] then [] else p :: authChainGo fuel (dropSeg p)

/-- The chain of candidate prefixes the loop inspects, longest first. -/
def authChain (p : PathStr) : List PathStr :=
  authChainGo (p.length + 1) p

/-- The effective policy for a URL path (`src/ops/mod.rs` lines
286-311): the global policy unless the per-path map is non-empty and
some prefix of the stripped path matches. -/
def effectiveAuth (m : AuthMap) (global : Option Cred) (urlPath : PathStr) :
    Option Cred :=
  if m = [] then global
  else authLoop m global (stripTrail (stripLead urlPath))

/-- Outcome of the auth gate. -/
inductive AuthResult
  | pass
  | unauthorized
deriving DecidableEq

/-- Submitted-password normalisation (`src/ops/mod.rs` lines 315-319):
a present-but-empty password is treated as no password. -/
def normalizePwd (p : Option String) : Option String :=
  if p = some "" then none else p

/-- Embedding of `HttpHandler::verify_auth` (`src/ops/mod.rs` lines
285-352): resolve the effective policy; no policy passes the request
through; otherwise require Basic credentials matching username and
(normalised) password, else 401. -/
def verifyAuth (m : AuthMap) (global : Option Cred) (urlPath : PathStr)
    (creds : Option (String × Option String)) : AuthResult :=
  match effectiveAuth m global urlPath with
  | none => .pass
  | some (u, pw) =>
      match creds with
      | none => .unauthorized
      | some (su, sp) =>
          if su = u ∧ normalizePwd sp = pw then .pass else .unauthorized

/- ===================== dispatcher and 501 responses (C6) ===================== -/

/-- Response model: status code, ordered header list (name, value) and
body string. -/
structure Resp where
  status : Nat
  headers : List (String × String)
  body : String
deriving DecidableEq

/-- Header lookup by name (first occurrence). -/
def getHeader (r : Resp) (name : String) : Option String :=
  (r.headers.find? (fun h => h.1 = name)).map (fun h => h.2)

/-- Iron's `method::Method` as matched by `HttpHandler::handle`
(`src/ops/mod.rs` lines 245-272). -/
inductive Method
  | options
  | get
  | head
  | put
  | delete
  | trace
  | post
  | connect
  | patch
  | ext (s : String)
deriving DecidableEq

/-- The WebDAV level-1 method names routed at `src/ops/mod.rs` lines
259-264. -/
def davMethodNames : List String :=
  ["COPY", "MKCOL", "MOVE", "PROPFIND", "PROPPATCH"]

/-- Whether `HttpHandler::handle` routes the method to
`handle_bad_method` (`src/ops/mod.rs` lines 245-272): extension methods
other than the WebDAV five, any extension method when WebDAV is
disabled, and the unhandled built-ins (`_` arm). -/
def routesToBadMethod (webdav : Bool) : Method → Bool
  | .ext s => if webdav then !(davMethodNames.contains s) else true
  | .post => true
  | .connect => true
  | .patch => true
  | _ => false

/-- Modelled from the spec: `dav_level_1_methods` lives in the WebDAV
utility module, absent from `src/`; per spec §6, the five WebDAV
methods are allowed iff WebDAV is enabled, the mutating ones
transitively iff writes are enabled. -/
def davLevel1Methods (writes : Bool) : List String :=
  if writes then davMethodNames else ["PROPFIND"]

/-- Embedding of the `allowed_methods` construction in
`HttpHandler::new` (`src/ops/mod.rs` lines 166-174). -/
def allowedMethods (webdav writes : Bool) : List String :=
  (if webdav then davLevel1Methods writes else []) ++
  ["OPTIONS", "GET", "HEAD", "TRACE"] ++
  (if writes then ["PUT", "DELETE"] else [])

/-- Comma-separated rendering of the allowed set (`CommaList`). -/
def commaList (ms : List String) : String :=
  String.intercalate ", " ms

/-- Modelled from the spec: `html_response` instantiates the shared
HTML error template (generated into `OUT_DIR` by `build.rs` from
`assets/error.html`, absent from `src/`) with the given strings. -/
def htmlResponse (args : List String) : String :=
  "<!doctype html><html>" ++ String.intercalate " " args ++ "</html>"

/-- One entry of the generated-response cache
(`cache_gen : CacheT<Vec<u8>>`, `src/ops/mod.rs` line 136). -/
structure GenCacheEntry where
  keyHash : String
  keyEnc : String
  bytes : String
  atime : Nat
deriving DecidableEq

/-- Lookup in the generated cache by (body hash, encoding). -/
def genFind (cache : List GenCacheEntry) (h enc : String) :
    Option GenCacheEntry :=
  cache.find? (fun e => e.keyHash = h ∧ e.keyEnc = enc)

/-- Embedding of `HttpHandler::handle_generated_response_encoding`
(`src/ops/mod.rs` lines 1304-1380).  `hash` abstracts `blake3::hash`
(the etag of a generated page is the hex hash of its body);
`encoding` is the outcome of `response_encoding(Accept-Encoding)`;
`encodeStr` abstracts the encoder (`None` = encode failure); `now` the
monotonic clock.  Returns the response and the new generated cache. -/
def genRespEncoding (hash : String → String) (encodeStr : String → Option String)
    (genLimit : Nat) (cache : List GenCacheEntry) (now : Nat)
    (isGetOrHead : Bool) (inm : InmHeader) (encoding : Option String)
    (st : Nat) (resp : String) : Resp × List GenCacheEntry :=
  let etag := hash resp
  if st = 200 ∧ isGetOrHead = true ∧
     (match inm with | .items tags => etagMatch tags etag | _ => false) = true then
    ({ status := 304,
       headers := [("Server", "http"), ("ETag", etag),
                   ("Content-Type", "text/html; charset=utf-8")],
       body := "" }, cache)
  else
    match encoding with
    | some enc =>
        match genFind cache etag enc with
        | some e =>
            ({ status := st,
               headers := [("Server", "http"), ("Content-Encoding", enc),
                           ("ETag", etag),
                           ("Content-Type", "text/html; charset=utf-8")],
               body := e.bytes },
             cache)
        | none =>
            match encodeStr resp with
            | some encd =>
                if encd.length ≤ genLimit then
                  ({ status := st,
                     headers := [("Server", "http"), ("Content-Encoding", enc),
                                 ("ETag", etag),
                                 ("Content-Type", "text/html; charset=utf-8")],
                     body := encd },
                   { keyHash := etag, keyEnc := enc, bytes := encd,
                     atime := now } :: cache)
                else
                  ({ status := st,
                     headers := [("Server", "http"), ("Content-Encoding", enc),
                                 ("ETag", etag),
                                 ("Content-Type", "text/html; charset=utf-8")],
                     body := encd },
                   cache)
            | none =>
                ({ status := st,
                   headers := [("Server", "http"), ("ETag", etag),
                               ("Content-Type", "text/html; charset=utf-8")],
                   body := resp },
                 cache)
    | none =>
        ({ status := st,
           headers := [("Server", "http"), ("ETag", etag),
                       ("Content-Type", "text/html; charset=utf-8")],
           body := resp },
         cache)

/-- Embedding of `HttpHandler::handle_bad_method` (`src/ops/mod.rs`
lines 1290-1302): a 501 page whose final paragraph lists the allowed
method set. -/
def handleBadMethod (hash : String → String) (encodeStr : String → Option String)
    (genLimit : Nat) (cache : List GenCacheEntry) (now : Nat)
    (inm : InmHeader) (encoding : Option String)
    (allowed : List String) (methodName : String) : Resp × List GenCacheEntry :=
  let lastP := "<p>Unsupported request method: " ++ methodName ++
    ".<br />\nSupported methods: " ++ commaList allowed ++ ".</p>"
  genRespEncoding hash encodeStr genLimit cache now false inm encoding 501
    (htmlResponse ["501 Not Implemented", "This operation was not implemented.",
                   lastP])

/-- The response decorations applied after the handler returns
(`src/ops/mod.rs` lines 274-279): `DAV: 1` when WebDAV is enabled, then
the configured additional headers, appended verbatim. -/
def decorateResp (webdav : Bool) (extra : List (String × String)) (r : Resp) :
    Resp :=
  { r with headers := r.headers ++
      (if webdav then [("DAV", "1")] else []) ++ extra }

/-- The dispatcher's behaviour on methods routed to
`handle_bad_method`, with decorations (`src/ops/mod.rs` lines 245-280):
`none` when the method is handled elsewhere. -/
def handleIfBadMethod (hash : String → String)
    (encodeStr : String → Option String) (genLimit : Nat)
    (cache : List GenCacheEntry) (now : Nat) (inm : InmHeader)
    (encoding : Option String) (webdav writes : Bool)
    (extra : List (String × String)) (m : Method) (methodName : String) :
    Option Resp :=
  if routesToBadMethod webdav m then
    some (decorateResp webdav extra
      (handleBadMethod hash encodeStr genLimit cache now inm encoding
        (allowedMethods webdav writes) methodName).1)
  else none

/- ===================== filesystem model (C1, C7, C8, C9) ===================== -/

/-- One `Path` component, as Rust's `PathBuf` stores them textually:
a normal name, `.` or `..`. -/
inductive Comp
  | norm (s : String)
  | dot
  | dotdot
deriving DecidableEq

/-- A filesystem node: regular file, directory, or symlink whose target
is recorded as (is-absolute, components). -/
inductive FNode
  | file
  | dir
  | symlink (absT : Bool) (target : List Comp)
deriving DecidableEq

/-- A static filesystem: a finite association list from absolute,
normalised paths (component-name lists, `[]` = the filesystem root) to
nodes. -/
abbrev Fsys := List (List String × FNode)

/-- Node lookup. -/
def fsGet (fs : Fsys) (p : List String) : Option FNode :=
  (fs.find? (fun e => e.1 = p)).map (fun e => e.2)

/-- View a normalised path as components. -/
def toComps (l : List String) : List Comp :=
  l.map Comp.norm

/-- OS-level path resolution, as `realpath` / `fs::canonicalize` walk a
path: `acc` is the already-resolved (absolute, symlink-free) prefix,
which must be a directory to descend further; `.` is skipped, `..`
pops, a normal component must exist and symlinks are resolved against
the link's parent (or the root when absolute).  `fuel` bounds the
total number of resolution steps and stands in for the OS's symlink
limit (`ELOOP`); any sufficiently large value agrees with the OS on
every path whose link chains terminate. -/
def resolveComps (fs : Fsys) : Nat → List String → List Comp →
    Option (List String)
  | 0, _, _ => none
  | _ + 1, acc, [] => some acc
  | fuel + 1, acc, c :: rest =>
      if fsGet fs acc = some FNode.dir then
        match c with
        | .dot => resolveComps fs fuel acc rest
        | .dotdot => resolveComps fs fuel acc.dropLast rest
        | .norm s =>
            match fsGet fs (acc ++ [s]) with
            | none => none
            | some .file => resolveComps fs fuel (acc ++ [s]) rest
            | some .dir => resolveComps fs fuel (acc ++ [s]) rest
            | some (.symlink absT t) =>
                match resolveComps fs fuel (if absT then [] else acc) t with
                | none => none
                | some acc2 => resolveComps fs fuel acc2 rest
      else none

/-- The symlink-chain budget of the request-path parser:
`MAX_SYMLINKS` (`src/util/mod.rs` line 79). -/
def maxSymlinks : Nat := 40

/-- Step budget for OS path resolution; ample for every scenario in
this development. -/
def canonFuel : Nat := 4096

/-- `fs::canonicalize` of a component path rooted at `/`. -/
def canonicalize (fs : Fsys) (p : List Comp) : Option (List String) :=
  resolveComps fs canonFuel [] p

/-- `Path::exists()`: `stat` succeeds, following symlinks. -/
def pathExists (fs : Fsys) (p : List Comp) : Bool :=
  (canonicalize fs p).isSome

/-- The resolved node of a path, following symlinks (`metadata()`). -/
def statNode (fs : Fsys) (p : List Comp) : Option FNode :=
  (canonicalize fs p).bind (fsGet fs)

/-- `Path::read_link()` (`readlink(2)`): resolve every component but
the last, then return the final component's link target if it is a
symlink, `None` otherwise. -/
def readLink (fs : Fsys) (p : List Comp) : Option (Bool × List Comp) :=
  match p.getLast? with
  | some (Comp.norm s) =>
      match resolveComps fs canonFuel [] p.dropLast with
      | some pp =>
          if fsGet fs pp = some FNode.dir then
            match fsGet fs (pp ++ [s]) with
            | some (.symlink b t) => some (b, t)
            | _ => none
          else none
      | none => none
  | _ => none

/-- Embedding of `is_descendant_of` (`src/util/mod.rs` lines 428-448):
canonicalize both paths (failure ⇒ `false`), then check that the
second is the first or one of its ancestors, i.e. a component-list
prefix. -/
def isDescendantOf (fs : Fsys) (who ofWhom : List Comp) : Bool :=
  match canonicalize fs who, canonicalize fs ofWhom with
  | some w, some o => o.isPrefixOf w
  | _, _ => none = some ()

/-- The parent-climbing loop of `is_nonexistent_descendant_of`
(`src/util/mod.rs` lines 464-474): take the parent, canonicalize it if
possible, compare with the target.  The Rust loop terminates because
once canonicalization succeeds every later step strictly shortens the
path; `fuel` (amply) bounds it in the model. -/
def nonexLoop (fs : Fsys) (oc : List Comp) : Nat → List Comp → Bool
  | 0, _ => false
  | fuel + 1, who =>
      if who = [] then false
      else
        let whoP := who.dropLast
        let who2 := match canonicalize fs whoP with
          | some c => toComps c
          | none => whoP
        if who2 = oc then true else nonexLoop fs oc fuel who2

/-- Embedding of `is_nonexistent_descendant_of` (`src/util/mod.rs`
lines 452-477): like `is_descendant_of` but `who` need not exist —
canonicalize it if possible, then climb parents (canonicalizing each)
looking for the canonicalized root. -/
def isNonexistentDescendantOf (fs : Fsys) (who ofWhom : List Comp) : Bool :=
  match canonicalize fs ofWhom with
  | none => false
  | some o =>
      let oc := toComps o
      let who1 := match canonicalize fs who with
        | some c => toComps c
        | none => who
      if who1 = oc then true
      else nonexLoop fs oc (who1.length + 4 * maxSymlinks + 8) who1

/- ===================== percent-decoding (C1) ===================== -/

/-- Value of a hexadecimal digit. -/
def hexVal (c : Char) : Option Nat :=
  if '0' ≤ c ∧ c ≤ '9' then some (c.toNat - '0'.toNat)
  else if 'a' ≤ c ∧ c ≤ 'f' then some (c.toNat - 'a'.toNat + 10)
  else if 'A' ≤ c ∧ c ≤ 'F' then some (c.toNat - 'A'.toNat + 10)
  else none

/-- Byte expansion of percent-escapes (`percent_encoding::percent_decode`):
`%XY` with two hex digits becomes the byte `0xXY`; anything else is
copied verbatim.  Input characters are the bytes of the URL segment
(URLs are ASCII). -/
def pctBytes : List Char → List Nat
  | [] => []
  | '%' :: a :: b :: rest =>
      match hexVal a, hexVal b with
      | some x, some y => (16 * x + y) :: pctBytes rest
      | _, _ => '%'.toNat :: pctBytes (a :: b :: rest)
  | c :: rest => c.toNat :: pctBytes rest

/-- Strict UTF-8 decoding of a byte sequence (`str::from_utf8`
validity: no overlong forms, no surrogates, `≤ U+10FFFF`). -/
def utf8Decode : List Nat → Option (List Char)
  | [] => some []
  | b :: rest =>
      if b ≤ 0x7F then (utf8Decode rest).map (fun cs => Char.ofNat b :: cs)
      else
        match rest with
        | [] => none
        | c :: rest2 =>
            if 0xC2 ≤ b ∧ b ≤ 0xDF then
              if 0x80 ≤ c ∧ c ≤ 0xBF then
                (utf8Decode rest2).map
                  (fun cs => Char.ofNat ((b - 0xC0) * 64 + (c - 0x80)) :: cs)
              else none
            else
              match rest2 with
              | [] => none
              | d :: rest3 =>
                  if 0xE0 ≤ b ∧ b ≤ 0xEF then
                    if (0x80 ≤ c ∧ c ≤ 0xBF) ∧ (0x80 ≤ d ∧ d ≤ 0xBF) ∧
                       (b = 0xE0 → 0xA0 ≤ c) ∧ (b = 0xED → c ≤ 0x9F) then
                      (utf8Decode rest3).map (fun cs =>
                        Char.ofNat ((b - 0xE0) * 4096 + (c - 0x80) * 64 +
                          (d - 0x80)) :: cs)
                    else none
                  else
                    match rest3 with
                    | [] => none
                    | e :: rest4 =>
                        if 0xF0 ≤ b ∧ b ≤ 0xF4 then
                          if (0x80 ≤ c ∧ c ≤ 0xBF) ∧ (0x80 ≤ d ∧ d ≤ 0xBF) ∧
                             (0x80 ≤ e ∧ e ≤ 0xBF) ∧
                             (b = 0xF0 → 0x90 ≤ c) ∧ (b = 0xF4 → c ≤ 0x8F) then
                            (utf8Decode rest4).map (fun cs =>
                              Char.ofNat ((b - 0xF0) * 262144 +
                                (c - 0x80) * 4096 + (d - 0x80) * 64 +
                                (e - 0x80)) :: cs)
                          else none
                        else none

/-- Embedding of `percent_decode` (`src/util/mod.rs` lines 351-353):
expand percent-escapes, then require the result to be valid UTF-8. -/
def percentDecode (s : String) : Option String :=
  (utf8Decode (pctBytes s.data)).map List.asString

/- ===================== request-path parsing (C1, C7, C9) ===================== -/

/-- Split a character list at every `/`. -/
def splitSlash : List Char → List Char → List (List Char)
  | [], acc => [acc.reverse]
  | '/' :: rest, acc => acc.reverse :: splitSlash rest []
  | c :: rest, acc => splitSlash rest (c :: acc)

/-- Split a decoded segment string into path components, as consuming
the pushed text does: split on `/`, drop empty pieces, read `.` and
`..`. -/
def strComps (s : String) : List Comp :=
  (((splitSlash s.data []).map List.asString).filter (fun t => t ≠ "")).map
    (fun t => if t = ".." then Comp.dotdot else if t = "." then Comp.dot
              else Comp.norm t)

/-- `PathBuf::push` of a decoded segment: an absolute path replaces the
accumulator entirely, a relative one appends its components. -/
def pushDecoded (cur : List Comp) (s : String) : List Comp :=
  match s.data with
  | '/' :: _ => strComps s
  | _ => cur ++ strComps s

/-- The symlink-following `while` loop of
`parse_requested_path_custom_symlink` (`src/ops/mod.rs` lines
1418-1432): while the accumulator reads as a link, flag it; if
following and budget remains, replace with the target (absolute
replaces, relative pops the last component first and clears the
absolute flag); otherwise stop.  Returns (path, symlink flag, abs
flag, remaining budget). -/
def linkLoop (fs : Fsys) (follow : Bool) : Nat → List Comp → Bool → Bool →
    List Comp × Bool × Bool × Nat
  | 0, cur, sk, abs =>
      match readLink fs cur with
      | none => (cur, sk, abs, 0)
      | some _ => (cur, true, abs, 0)
  | depth + 1, cur, sk, abs =>
      match readLink fs cur with
      | none => (cur, sk, abs, depth + 1)
      | some (tabs, t) =>
          if follow then
            linkLoop fs follow depth
              (if tabs then t else cur.dropLast ++ t)
              true
              (if tabs then abs else false)
          else (cur, true, abs, depth + 1)

/-- The per-segment body of the fold in
`parse_requested_path_custom_symlink` (`src/ops/mod.rs` lines
1408-1434): skip empty segments, percent-decode (failure sets the
error flag and pushes nothing), push, then run the symlink loop. -/
def parseFold (fs : Fsys) (follow : Bool)
    (st : List Comp × Bool × Bool × Bool × Nat) (seg : String) :
    List Comp × Bool × Bool × Bool × Nat :=
  if seg = "" then st
  else
    let cur := st.1
    let sk := st.2.1
    let err := st.2.2.1
    let abs := st.2.2.2.1
    let depth := st.2.2.2.2
    match percentDecode seg with
    | some dec =>
        let r := linkLoop fs follow depth (pushDecoded cur dec) sk abs
        (r.1, r.2.1, err, r.2.2.1, r.2.2.2)
    | none =>
        let r := linkLoop fs follow depth cur sk abs
        (r.1, r.2.1, true, r.2.2.1, r.2.2.2)

/-- Embedding of `parse_requested_path_custom_symlink`
(`src/ops/mod.rs` lines 1406-1443): fold the URL path segments from
the hosted root with symlink budget `MAX_SYMLINKS`; if a relative link
was followed, canonicalize when possible.  Returns (path, symlink
flag, URL-error flag). -/
def parseRequestedPath (fs : Fsys) (root : List String) (follow : Bool)
    (segs : List String) : List Comp × Bool × Bool :=
  let st := segs.foldl (parseFold fs follow)
    (toComps root, false, false, true, maxSymlinks)
  let cur := st.1
  let cur := if st.2.2.2.1 = false then
      match canonicalize fs cur with
      | some c => toComps c
      | none => cur
    else cur
  (cur, st.2.1, st.2.2.1)

/- ===================== GET handler (C1) ===================== -/

/-- `INDEX_EXTENSIONS` (`src/util/mod.rs` line 74). -/
def indexExtensions : List String := ["html", "htm", "shtml"]

/-- `Path::extension()` of the final component: the part after the
last dot, provided the dot is not the leading character of the file
name; `..`/`.` components have no file name. -/
def extOf (p : List Comp) : Option String :=
  match p.getLast? with
  | some (Comp.norm s) =>
      match s.data.reverse.findIdx? (fun c => c = '.') with
      | some ri =>
          let pos := s.length - 1 - ri
          if pos = 0 then none else some (List.asString (s.data.drop (pos + 1)))
      | none => none
  | _ => none

/-- `Path::with_extension(e)` / `set_extension(e)` on the final
component: strip any current extension, then append `.e`. -/
def withExt (p : List Comp) (e : String) : List Comp :=
  match p.getLast? with
  | some (Comp.norm s) =>
      let stem :=
        match s.data.reverse.findIdx? (fun c => c = '.') with
        | some ri =>
            let pos := s.length - 1 - ri
            if pos = 0 then s.data else s.data.take pos
        | none => s.data
      p.dropLast ++ [Comp.norm (List.asString (stem ++ ('.' :: e.data)))]
  | _ => p ++ [Comp.norm (List.asString ('.' :: e.data))]

/-- Configuration bits of `HttpHandler` consulted by `handle_get`. -/
structure GetCfg where
  root : List String
  followCfg : Bool
  sandbox : Bool
  stripExt : Bool
  checkIndices : Bool
  genListings : Bool
deriving DecidableEq

/-- Outcome of a GET: which filesystem path the server goes on to
serve (file content, an index file, or a directory listing of it), or
an error response. -/
inductive GetOut
  | badUrl
  | notFound (p : List Comp)
  | redirect303
  | servedFile (p : List Comp)
  | servedIndex (p : List Comp)
  | servedListing (p : List Comp)
deriving DecidableEq

/-- The directory tail of `handle_get` → `handle_get_dir`
(`src/ops/mod.rs` lines 793-825): with `check_indices`, look for
`index.{html,htm,shtml}` under the directory (subject to the
sandbox-or-not condition on the directory itself); serve it when the
URL ends in a slash, else redirect 303; otherwise serve a listing
unless listings are disabled (404). -/
def handleGetDir (fs : Fsys) (cfg : GetCfg) (segs : List String)
    (p : List Comp) : GetOut :=
  let idxFound :=
    if cfg.checkIndices then
      indexExtensions.findSome? (fun e =>
        let idx := p ++ [Comp.norm (String.append "index." e)]
        if pathExists fs idx &&
           ((!cfg.followCfg || !cfg.sandbox) ||
            (cfg.followCfg && cfg.sandbox &&
               isDescendantOf fs p (toComps cfg.root))) then
          some idx
        else none)
    else none
  match idxFound with
  | some idx => if segs.getLast? = some "" then .servedIndex idx else .redirect303
  | none => if !cfg.genListings then .notFound p else .servedListing p

/-- Embedding of `HttpHandler::handle_get` (`src/ops/mod.rs` lines
359-395): parse the requested path (always following symlinks during
parsing), 400 on a URL-decoding error, apply the `strip_extensions`
index-extension fallback, then 404 unless the path exists and passes
the symlink gate; serve the file (the range / raw-fs / plain handlers
all serve `req_p`) or descend into the directory logic. -/
def handleGet (fs : Fsys) (cfg : GetCfg) (segs : List String) : GetOut :=
  let pr := parseRequestedPath fs cfg.root true segs
  let p0 := pr.1
  let sk := pr.2.1
  let err := pr.2.2
  if err then .badUrl
  else
    let p :=
      if !(pathExists fs p0) && (extOf p0).isNone && cfg.stripExt then
        match indexExtensions.findSome? (fun e =>
          let rp := withExt p0 e
          if pathExists fs rp then some rp else none) with
        | some rp => rp
        | none => p0
      else p0
    if !(pathExists fs p) || (sk && !cfg.followCfg) ||
       (sk && cfg.followCfg && cfg.sandbox &&
          !(isDescendantOf fs p (toComps cfg.root))) then
      .notFound p
    else if statNode fs p = some FNode.file then .servedFile p
    else handleGetDir fs cfg segs p

/- ===================== PUT handler (C7, C8, C9) ===================== -/

/-- Filesystem effects of the PUT handler, in order of execution.
`setMtime` models `set_mtime` (OS utility module, absent from `src/`):
per the spec it sets the target's modification time to the given
milliseconds-since-epoch value.  `ensureDir` models `create_temp_dir`
(`src/ops/mod.rs` lines 1445-1450): create the directory if missing. -/
inductive FsOp
  | ensureDir (p : List Comp)
  | createFile (p : List Comp)
  | createDirAll (p : List Comp)
  | copyFile (src dst : List Comp)
  | setMtime (p : List Comp) (ms : Nat)
  | removeFile (p : List Comp)
deriving DecidableEq

/-- The path an operation writes to. -/
def opPath : FsOp → List Comp
  | .ensureDir p => p
  | .createFile p => p
  | .createDirAll p => p
  | .copyFile _ d => d
  | .setMtime p _ => p
  | .removeFile p => p

/-- Configuration bits of `HttpHandler` consulted by `handle_put`. -/
structure PutCfg where
  root : List String
  followCfg : Bool
  sandbox : Bool
  writesEnabled : Bool
  writesDir : List String
deriving DecidableEq

/-- Outcome of a PUT. -/
inductive PutOut
  | forbidden
  | badUrl
  | dirTarget
  | fileAsDir
  | partialContent
  | done (status : Nat) (ops : List FsOp)
deriving DecidableEq

/-- Status code of a completed PUT. -/
def statusOf : PutOut → Option Nat
  | .done st _ => some st
  | _ => none

/-- Filesystem operations of a completed PUT. -/
def opsOf : PutOut → List FsOp
  | .done _ ops => ops
  | _ => []

/-- The parent-walk of `detect_file_as_dir` (`src/util/mod.rs` lines
405-415), bounded by the path length. -/
def detectFileAsDirGo (fs : Fsys) : Nat → List Comp → Bool
  | 0, _ => false
  | fuel + 1, p =>
      if p = [] then false
      else (statNode fs p.dropLast = some FNode.file) ||
        detectFileAsDirGo fs fuel p.dropLast

/-- Embedding of `detect_file_as_dir`: some proper ancestor of the
path is an existing regular file. -/
def detectFileAsDir (fs : Fsys) (p : List Comp) : Bool :=
  detectFileAsDirGo fs p.length p

/-- The final component (`file_name()`) used to name the staging file. -/
def lastComp (p : List Comp) : Comp :=
  (p.getLast?).getD (Comp.norm "")

/-- Embedding of the stored-mtime selection of `handle_put_file`
(`src/ops/mod.rs` line 1166): `X-Last-Modified` (milliseconds), else
`X-OC-MTime` (seconds) times 1000, as wrapping `u64` arithmetic. -/
def putMtime (xlm xoc : Option Nat) : Option Nat :=
  xlm.orElse (fun _ => xoc.map (fun s => s * 1000 % U64MOD))

/-- Embedding of `HttpHandler::handle_put_file` (`src/ops/mod.rs`
lines 1164-1208): stream the body to the staging file under `writes/`
named by the target's basename; only when `legal`, create missing
parent directories, copy the staging file into place and apply the
header-supplied mtime; remove the staging file on all exits.  Respond
201 unless the target was legal and previously existent (204). -/
def handlePutFile (cfg : PutCfg) (fs : Fsys) (p : List Comp)
    (legal : Bool) (xlm xoc : Option Nat) : PutOut :=
  let existent := !legal || pathExists fs p
  let mtime := putMtime xlm xoc
  let tempP := toComps cfg.writesDir ++ [lastComp p]
  let ops := FsOp.ensureDir (toComps cfg.writesDir) :: FsOp.createFile tempP ::
    ((if legal then
        FsOp.createDirAll p.dropLast :: FsOp.copyFile tempP p ::
          (match mtime with
           | some ms => [FsOp.setMtime p ms]
           | none => [])
      else []) ++ [FsOp.removeFile tempP])
  .done (if !legal || !existent then 201 else 204) ops

/-- Embedding of `HttpHandler::handle_put` (`src/ops/mod.rs` lines
1106-1127): 403 when writes are disabled; parse the path; 400 on
decode error; 405 on a directory target; 400 when an ancestor is a
file; 400 on `Content-Range`; otherwise compute the illegality of the
resolved path (unfollowed symlink, or sandboxed symlink escaping the
root) and run `handle_put_file` with `legal = !illegal`. -/
def handlePut (fs : Fsys) (cfg : PutCfg) (segs : List String)
    (hasContentRange : Bool) (xlm xoc : Option Nat) : PutOut :=
  if !cfg.writesEnabled then .forbidden
  else
    let pr := parseRequestedPath fs cfg.root true segs
    let p := pr.1
    let sk := pr.2.1
    let err := pr.2.2
    if err then .badUrl
    else if statNode fs p = some FNode.dir then .dirTarget
    else if detectFileAsDir fs p then .fileAsDir
    else if hasContentRange then .partialContent
    else
      let illegal := (sk && !cfg.followCfg) ||
        (sk && cfg.followCfg && cfg.sandbox &&
           !(isNonexistentDescendantOf fs p (toComps cfg.root)))
      handlePutFile cfg fs p (!illegal) xlm xoc

/- ===================== concrete scenarios ===================== -/

/-- A hosted root `/srv/www` next to `/etc/passwd`. -/
def fsTrav : Fsys :=
  [([], FNode.dir), (["srv"], FNode.dir), (["srv", "www"], FNode.dir),
   (["srv", "www", "hello.txt"], FNode.file),
   (["etc"], FNode.dir), (["etc", "passwd"], FNode.file)]

/-- Sandboxed configuration hosting `/srv/www`. -/
def cfgTrav : GetCfg :=
  { root := ["srv", "www"], followCfg := true, sandbox := true,
    stripExt := false, checkIndices := false, genListings := true }

/-- The path the traversal request resolves to. -/
def travPath : List Comp :=
  [Comp.norm "srv", Comp.norm "www", Comp.dotdot, Comp.dotdot,
   Comp.norm "etc", Comp.norm "passwd"]

/-- A hosted root `/srv/www` containing a regular file and a symlink to
it. -/
def fsLink : Fsys :=
  [([], FNode.dir), (["srv"], FNode.dir), (["srv", "www"], FNode.dir),
   (["srv", "www", "file"], FNode.file),
   (["srv", "www", "link"],
    FNode.symlink true [Comp.norm "srv", Comp.norm "www", Comp.norm "file"])]

/-- PUT configuration with symlink following disabled and writes
enabled. -/
def cfgPutNoFollow : PutCfg :=
  { root := ["srv", "www"], followCfg := false, sandbox := true,
    writesEnabled := true, writesDir := ["tmp", "writes"] }

/-- The per-path auth policies of the specification's example:
`a` and `a/b`. -/
def credA : Cred := ("userA", some "pwA")

/-- Credentials attached to the `a/b` policy. -/
def credAB : Cred := ("userAB", some "pwAB")

/-- The example per-path policy map. -/
def mapExample : AuthMap :=
  [("a".data, some credA), ("a/b".data, some credAB)]

/- ===================== remaining definitions ===================== -/

/-- The amended conditional-GET policy: 304 iff the `If-None-Match`
ETag list contains the computed ETag, or `If-None-Match` is absent or
`*` (carries no ETag list) and `If-Modified-Since` is ≥ the file's
second-truncated mtime. -/
def spec304Amended (inm : InmHeader) (ims : Option Int) (mtimeSec : Int)
    (etag : String) : Bool :=
  (match inm with
   | .items tags => etagMatch tags etag
   | _ => false) ||
  ((decide (inm = .absent) || decide (inm = .star)) &&
   (match ims with
    | some since => decide (mtimeSec ≤ since)
    | none => false))

/-- The (decorated) response produced for a method routed to
`handle_bad_method`. -/
def badMethodResp (hash : String → String) (encodeStr : String → Option String)
    (genLimit : Nat) (cache : List GenCacheEntry) (now : Nat)
    (inm : InmHeader) (encoding : Option String) (webdav writes : Bool)
    (extra : List (String × String)) (methodName : String) : Resp :=
  decorateResp webdav extra
    (handleBadMethod hash encodeStr genLimit cache now inm encoding
      (allowedMethods webdav writes) methodName).1

/-- A trivial body-hash stand-in for concrete evaluations. -/
def constHash : String → String := fun _ => "deadbeef"

/-- An encoder that always fails, for concrete evaluations. -/
def encNever : String → Option String := fun _ => none

/- ===================== helper lemmas ===================== -/

theorem find?_append_of_none {α : Type} (p : α → Bool) (l1 l2 : List α)
    (h : l1.find? p = none) : (l1 ++ l2).find? p = l2.find? p := by
  induction l1 with
  | nil => rfl
  | cons a l ih =>
      cases hp : p a with
      | true =>
          rw [List.find?_cons_of_pos l hp] at h
          exact absurd h (by simp)
      | false =>
          rw [List.find?_cons_of_neg l (by simp [hp])] at h
          rw [List.cons_append, List.find?_cons_of_neg _ (by simp [hp])]
          exact ih h

theorem usub_zero (a : Nat) : usub a 0 = a := by
  simp [usub]

theorem usub_of_le (a b : Nat) (h : b ≤ a) : usub a b = a - b := by
  simp [usub, h]

theorem foldlMin_mem (es : List FsCacheEntry) (a : FsCacheEntry) :
    es.foldl (fun x b => if b.atime < x.atime then b else x) a ∈ a :: es := by
  induction es generalizing a with
  | nil => simp
  | cons b bs ih =>
      simp only [List.foldl_cons]
      by_cases hb : b.atime < a.atime
      · rw [if_pos hb]
        have h := ih b
        rw [List.mem_cons] at h
        rcases h with h | h
        · simp [h]
        · simp [h]
      · rw [if_neg hb]
        have h := ih a
        rw [List.mem_cons] at h
        rcases h with h | h
        · simp [h]
        · simp [h]

theorem foldlMin_le (es : List FsCacheEntry) (a : FsCacheEntry) :
    (es.foldl (fun x b => if b.atime < x.atime then b else x) a).atime ≤ a.atime ∧
    ∀ x ∈ es, (es.foldl (fun x b => if b.atime < x.atime then b else x) a).atime ≤
      x.atime := by
  induction es generalizing a with
  | nil => simp
  | cons b bs ih =>
      simp only [List.foldl_cons]
      have hab : ((if b.atime < a.atime then b else a).atime ≤ a.atime) ∧
          ((if b.atime < a.atime then b else a).atime ≤ b.atime) := by
        by_cases hb : b.atime < a.atime
        · rw [if_pos hb]
          omega
        · rw [if_neg hb]
          omega
      rcases ih (if b.atime < a.atime then b else a) with ⟨h1, h2⟩
      refine ⟨le_trans h1 hab.1, ?_⟩
      intro x hx
      rw [List.mem_cons] at hx
      rcases hx with hx | hx
      · subst hx
        exact le_trans h1 hab.2
      · exact h2 x hx

theorem minByAtime_mem (l : List FsCacheEntry) (e : FsCacheEntry)
    (h : minByAtime l = some e) : e ∈ l := by
  cases l with
  | nil => simp [minByAtime] at h
  | cons a es =>
      simp only [minByAtime, Option.some_inj] at h
      subst h
      exact foldlMin_mem es a

theorem minByAtime_le (l : List FsCacheEntry) (e : FsCacheEntry)
    (h : minByAtime l = some e) : ∀ x ∈ l, e.atime ≤ x.atime := by
  cases l with
  | nil => simp [minByAtime] at h
  | cons a es =>
      simp only [minByAtime, Option.some_inj] at h
      subst h
      intro x hx
      rw [List.mem_cons] at hx
      rcases hx with hx | hx
      · subst hx
        exact (foldlMin_le es x).1
      · exact (foldlMin_le es a).2 x hx

theorem minByAtime_ne_none (l : List FsCacheEntry) (h : l ≠ []) :
    minByAtime l ≠ none := by
  cases l with
  | nil => exact absurd rfl h
  | cons a es => simp [minByAtime]

theorem eraseKey_sublist (l : List FsCacheEntry) (k : Nat × String) :
    (eraseKey l k).Sublist l := by
  induction l with
  | nil => simp [eraseKey]
  | cons a es ih =>
      simp only [eraseKey]
      by_cases hk : entryKey a = k
      · rw [if_pos hk]
        exact List.sublist_cons_self a es
      · rw [if_neg hk]
        exact ih.cons₂ a

theorem mem_eraseKey (l : List FsCacheEntry) (k : Nat × String)
    (e : FsCacheEntry) (he : e ∈ l) (hk : entryKey e ≠ k) :
    e ∈ eraseKey l k := by
  induction l with
  | nil => simp at he
  | cons a es ih =>
      rw [List.mem_cons] at he
      simp only [eraseKey]
      by_cases ha : entryKey a = k
      · rw [if_pos ha]
        rcases he with he | he
        · subst he
          exact absurd ha hk
        · exact he
      · rw [if_neg ha]
        rcases he with he | he
        · subst he
          exact List.mem_cons_self _ _
        · exact List.mem_cons_of_mem _ (ih he)

theorem sumPresent_cons (x : FsCacheEntry) (l : List FsCacheEntry) :
    sumPresent (x :: l) =
      (if x.present = true then x.size else 0) + sumPresent l := by
  by_cases hx : x.present = true
  · simp [sumPresent, List.filter_cons, hx]
  · simp only [Bool.not_eq_true] at hx
    simp [sumPresent, List.filter_cons, hx]

theorem sumPresent_eraseKey (l : List FsCacheEntry) (e : FsCacheEntry)
    (hnd : (l.map entryKey).Nodup) (he : e ∈ l) (hp : e.present = true) :
    sumPresent l = e.size + sumPresent (eraseKey l (entryKey e)) := by
  induction l with
  | nil => simp at he
  | cons a es ih =>
      simp only [List.map_cons, List.nodup_cons] at hnd
      rw [List.mem_cons] at he
      simp only [eraseKey]
      by_cases ha : entryKey a = entryKey e
      · have hae : a = e := by
          rcases he with he | he
          · exact he.symm
          · exact absurd (ha ▸ List.mem_map_of_mem entryKey he) hnd.1
        subst hae
        rw [if_pos ha, sumPresent_cons, if_pos hp]
      · have he' : e ∈ es := by
          rcases he with he | he
          · exact absurd (he ▸ rfl) ha
          · exact he
        rw [if_neg ha, sumPresent_cons, sumPresent_cons, ih hnd.2 he']
        omega

theorem nodup_key_inj (l : List FsCacheEntry)
    (hnd : (l.map entryKey).Nodup) (e e' : FsCacheEntry)
    (he : e ∈ l) (he' : e' ∈ l) (hk : entryKey e = entryKey e') : e = e' :=
  List.inj_on_of_nodup_map hnd he he' hk

theorem sumPresent_pos_exists (l : List FsCacheEntry)
    (h : 0 < sumPresent l) : ∃ x ∈ l, x.present = true := by
  induction l with
  | nil => simp [sumPresent] at h
  | cons a es ih =>
      rw [sumPresent_cons] at h
      by_cases ha : a.present = true
      · exact ⟨a, List.mem_cons_self _ _, ha⟩
      · rw [if_neg ha, Nat.zero_add] at h
        rcases ih h with ⟨x, hx, hpx⟩
        exact ⟨x, List.mem_cons_of_mem _ hx, hpx⟩

theorem pruneGo_keeps_max (delOk : String → Bool) (size limit : Nat) :
    ∀ (fuel freed : Nat) (cache : List FsCacheEntry) (hashes : List Nat),
      (cache.map entryKey).Nodup →
      (∀ x ∈ cache, x.present = true → x.atime < uMAX) →
      (∀ x ∈ cache, x.present = false → x.atime = uMAX) →
      size = freed + sumPresent cache →
      ∀ e ∈ cache, e.atime = uMAX →
        e ∈ (pruneFsGo delOk size limit fuel freed cache hashes).1 := by
  intro fuel
  induction fuel with
  | zero =>
      intro freed cache hashes _ _ _ _ e he _
      simpa [pruneFsGo] using he
  | succ n ih =>
      intro freed cache hashes hnd hpres habs hsz e he hmax
      simp only [pruneFsGo]
      by_cases hg : usub size freed > limit
      · rw [if_pos hg]
        have hfle : freed ≤ size := by omega
        have hsp : 0 < sumPresent cache := by
          rw [usub_of_le size freed hfle] at hg
          omega
        rcases sumPresent_pos_exists cache hsp with ⟨x, hx, hpx⟩
        have hxa : x.atime < uMAX := hpres x hx hpx
        obtain ⟨em, hm⟩ : ∃ em, minByAtime cache = some em := by
          cases hmm : minByAtime cache with
          | none =>
              exact absurd hmm (minByAtime_ne_none cache
                (by rintro rfl; simp at hx))
          | some em => exact ⟨em, rfl⟩
        have hemm : em ∈ cache := minByAtime_mem cache em hm
        have hema : em.atime < uMAX :=
          lt_of_le_of_lt (minByAtime_le cache em hm x hx) hxa
        have hemp : em.present = true := by
          cases hp : em.present with
          | true => rfl
          | false => exact absurd (habs em hemm hp) (by omega)
        cases hd : delOk em.path with
        | false =>
            simp only [hm, hd]
            simpa using he
        | true =>
            simp only [hm, hd]
            have hne : e ≠ em := by
              rintro rfl
              omega
            have hkne : entryKey e ≠ entryKey em := by
              intro hk
              exact hne (nodup_key_inj cache hnd e em he hemm hk)
            have hsub := eraseKey_sublist cache (entryKey em)
            have hmain := ih (freed + em.size) (eraseKey cache (entryKey em))
              (em.keyHash :: hashes)
              ((hsub.map entryKey).nodup hnd)
              (fun y hy => hpres y (hsub.mem hy))
              (fun y hy => habs y (hsub.mem hy))
              (by rw [sumPresent_eraseKey cache em hnd hemm hemp] at hsz; omega)
              e (mem_eraseKey cache (entryKey em) e he hkne) hmax
            simpa using hmain
      · rw [if_neg hg]
        exact he

theorem dropSeg_length_lt (p : PathStr) (h : p ≠ []) :
    (dropSeg p).length < p.length := by
  unfold dropSeg rfindSlash
  rcases p with _ | ⟨c, cs⟩
  · exact absurd rfl h
  · split
    · simp only [Option.getD_some, List.length_take, List.length_cons]
      omega
    · simpa using Nat.succ_pos cs.length

theorem authChainGo_stable (f1 : Nat) :
    ∀ (f2 : Nat) (p : PathStr), p.length < f1 → p.length < f2 →
      authChainGo f1 p = authChainGo f2 p := by
  induction f1 with
  | zero => intro f2 p h1 _; omega
  | succ n ih =>
      intro f2 p h1 h2
      cases f2 with
      | zero => omega
      | succ m =>
          by_cases hpe : p = []
          · simp [authChainGo, hpe]
          · simp only [authChainGo, if_neg hpe]
            have hd := dropSeg_length_lt p hpe
            rw [ih m (dropSeg p) (by omega) (by omega)]

theorem authChain_cons (p : PathStr) (h : p ≠ []) :
    authChain p = p :: authChain (dropSeg p) := by
  unfold authChain
  conv_lhs => rw [authChainGo]
  rw [if_neg h]
  have hd := dropSeg_length_lt p h
  rw [authChainGo_stable p.length ((dropSeg p).length + 1) (dropSeg p)
    (by omega) (by omega)]

theorem authLoopGo_stable (m : AuthMap) (g : Option Cred) (f1 : Nat) :
    ∀ (f2 : Nat) (p : PathStr), p.length < f1 → p.length < f2 →
      authLoopGo m g f1 p = authLoopGo m g f2 p := by
  induction f1 with
  | zero => intro f2 p h1 _; omega
  | succ n ih =>
      intro f2 p h1 h2
      cases f2 with
      | zero => omega
      | succ m2 =>
          by_cases hpe : p = []
          · simp [authLoopGo, hpe]
          · simp only [authLoopGo, if_neg hpe]
            cases mapFind m p with
            | some v => rfl
            | none =>
                have hd := dropSeg_length_lt p hpe
                exact ih m2 (dropSeg p) (by omega) (by omega)

theorem authLoop_nil (m : AuthMap) (g : Option Cred) : authLoop m g [] = g := rfl

theorem authLoop_step (m : AuthMap) (g : Option Cred) (p : PathStr)
    (h : p ≠ []) :
    authLoop m g p = (match mapFind m p with
      | some v => v
      | none => authLoop m g (dropSeg p)) := by
  unfold authLoop
  conv_lhs => rw [authLoopGo]
  rw [if_neg h]
  cases mapFind m p with
  | some v => rfl
  | none =>
      have hd := dropSeg_length_lt p h
      exact authLoopGo_stable m g p.length ((dropSeg p).length + 1) (dropSeg p)
        (by omega) (by omega)

theorem authChain_length_le (p : PathStr) :
    ∀ q ∈ authChain p, q.length ≤ p.length := by
  have H : ∀ n (p : PathStr), p.length ≤ n → ∀ q ∈ authChain p,
      q.length ≤ p.length := by
    intro n
    induction n with
    | zero =>
        intro p hp q hq
        have : p = [] := List.length_eq_zero.mp (Nat.le_zero.mp hp)
        subst this
        simp [authChain, authChainGo] at hq
    | succ n ihn =>
        intro p hp q hq
        by_cases hpe : p = []
        · subst hpe
          simp [authChain, authChainGo] at hq
        · rw [authChain_cons p hpe, List.mem_cons] at hq
          rcases hq with hq | hq
          · exact hq ▸ le_refl _
          · have hlt := dropSeg_length_lt p hpe
            have := ihn (dropSeg p) (by omega) q hq
            omega
  exact H p.length p (le_refl _)

theorem authLoop_longest (m : AuthMap) (g : Option Cred) :
    ∀ (p k : PathStr) (v : Option Cred), k ∈ authChain p →
      mapFind m k = some v →
      (∀ q ∈ authChain p, mapFind m q ≠ none → q.length ≤ k.length) →
      authLoop m g p = v := by
  have H : ∀ n (p k : PathStr) (v : Option Cred), p.length ≤ n →
      k ∈ authChain p → mapFind m k = some v →
      (∀ q ∈ authChain p, mapFind m q ≠ none → q.length ≤ k.length) →
      authLoop m g p = v := by
    intro n
    induction n with
    | zero =>
        intro p k v hp hk _ _
        have : p = [] := List.length_eq_zero.mp (Nat.le_zero.mp hp)
        subst this
        simp [authChain, authChainGo] at hk
    | succ n ihn =>
        intro p k v hp hk hfind hmax
        by_cases hpe : p = []
        · subst hpe
          simp [authChain, authChainGo] at hk
        · rw [authChain_cons p hpe, List.mem_cons] at hk
          rw [authLoop_step m g p hpe]
          cases hmp : mapFind m p with
          | some w =>
              have hkp : k = p := by
                rcases hk with hk | hk
                · exact hk
                · exfalso
                  have h1 : k.length ≤ (dropSeg p).length :=
                    authChain_length_le (dropSeg p) k hk
                  have h2 : p.length ≤ k.length := by
                    refine hmax p ?_ (by rw [hmp]; simp)
                    rw [authChain_cons p hpe]
                    exact List.mem_cons_self _ _
                  have h3 := dropSeg_length_lt p hpe
                  omega
              subst hkp
              rw [hmp] at hfind
              exact (Option.some_inj.mp hfind).symm ▸ rfl
          | none =>
              have hk' : k ∈ authChain (dropSeg p) := by
                rcases hk with hk | hk
                · subst hk
                  rw [hmp] at hfind
                  exact absurd hfind (by simp)
                · exact hk
              have hlt := dropSeg_length_lt p hpe
              refine ihn (dropSeg p) k v (by omega) hk' hfind ?_
              intro q hq hqf
              refine hmax q ?_ hqf
              rw [authChain_cons p hpe]
              exact List.mem_cons_of_mem _ hq
  exact fun p k v hk hf hm => H p.length p k v (le_refl _) hk hf hm

theorem authLoop_none (m : AuthMap) (g : Option Cred) :
    ∀ (p : PathStr), (∀ q ∈ authChain p, mapFind m q = none) →
      authLoop m g p = g := by
  have H : ∀ n (p : PathStr), p.length ≤ n →
      (∀ q ∈ authChain p, mapFind m q = none) → authLoop m g p = g := by
    intro n
    induction n with
    | zero =>
        intro p hp _
        have : p = [] := List.length_eq_zero.mp (Nat.le_zero.mp hp)
        subst this
        exact authLoop_nil m g
    | succ n ihn =>
        intro p hp hnone
        by_cases hpe : p = []
        · subst hpe
          exact authLoop_nil m g
        · rw [authLoop_step m g p hpe]
          have hmp : mapFind m p = none := by
            refine hnone p ?_
            rw [authChain_cons p hpe]
            exact List.mem_cons_self _ _
          rw [hmp]
          have hlt := dropSeg_length_lt p hpe
          refine ihn (dropSeg p) (by omega) ?_
          intro q hq
          refine hnone q ?_
          rw [authChain_cons p hpe]
          exact List.mem_cons_of_mem _ hq
  exact fun p => H p.length p (le_refl _)

/- ===================== claim theorems ===================== -/

/-- Claim C1: for every request URL and hosted root, with
`sandbox_symlinks` set, the path the server resolves and serves is
inside the root (canonicalized-prefix sense) or the request is 404 —
asserted to hold even for URLs whose segments percent-decode to `..`
components.  The code violates this: the GET of
`/..%2F..%2Fetc%2Fpasswd` against the sandboxed root `/srv/www`
percent-decodes the single segment to `../../etc/passwd`, pushes it
onto the root, flags no symlink, passes the existence check and is
served — a path that canonicalizes to `/etc/passwd`, outside the
root. -/
theorem C1_sandbox_escape_eval :
    handleGet fsTrav cfgTrav ["..%2F..%2Fetc%2Fpasswd"] =
      GetOut.servedFile travPath ∧
    canonicalize fsTrav travPath = some ["etc", "passwd"] ∧
    isDescendantOf fsTrav travPath (toComps cfgTrav.root) = false := by
  decide

/-- Claim C2 (counterexample): the claim says the If-Modified-Since
fallback applies only when no `If-None-Match` header is present, but a
request carrying `If-None-Match: *` (no ETag list) together with an
If-Modified-Since at or after the file's mtime is answered 304 by the
code while the claimed policy says it is not. -/
theorem C2_star_cex :
    should304 InmHeader.star (some 100) 50 "etag" = true ∧
    spec304 InmHeader.star (some 100) 50 "etag" = false := by
  decide

/-- Claim C2 (amended): a GET of an existing file is answered 304 iff
the request's `If-None-Match` ETag list contains the computed ETag, or
the request's `If-None-Match` is absent or `*` (carries no ETag list)
and the request carries an If-Modified-Since whose second-truncated
timestamp is ≥ the file's second-truncated mtime; a
present-but-non-matching ETag list suppresses the fallback. -/
theorem C2_conditional_get (inm : InmHeader) (ims : Option Int)
    (mtimeSec : Int) (etag : String) :
    should304 inm ims mtimeSec etag = spec304Amended inm ims mtimeSec etag := by
  cases inm <;> cases ims <;>
    simp [should304, spec304Amended]

/-- Claim C10 (counterexample): the last-prune timestamp starts at 0,
so a first invocation at monotonic time 20 s with `prune_interval`
10 s runs the TTL sweep even though the following invocation arrives
only 1 s later: under a continuous stream of requests spaced closer
than the interval, the sweep is not "never run" — the first
invocation sweeps. -/
theorem C10_first_invocation_cex :
    ttlSweeps 10 [20 * 10 ^ 9, 21 * 10 ^ 9] = [true, false] ∧
    (21 * 10 ^ 9 - 20 * 10 ^ 9) / 1000 / 1000 / 1000 < 10 := by
  decide

/-- Claim C10 (amended): on every prune invocation with a TTL
configured, the last-prune timestamp is swapped to the current time
even when the sweep is skipped; a sweep can only run when at least
`prune_interval` seconds have elapsed since the value it swapped out —
the immediately preceding invocation's time, or the initial zero for
the very first invocation (which may therefore sweep once); under a
continuous stream of invocations spaced closer together than
`prune_interval`, no invocation after the first ever sweeps. -/
theorem C10_prune_clock (lastT now interval t0 : Nat) (ts : List Nat)
    (hchain : List.Chain
      (fun a b => (b - a) / 1000 / 1000 / 1000 < interval) t0 ts) :
    (ttlSwapStep lastT now interval).2 = now ∧
    ((ttlSwapStep lastT now interval).1 = true →
      (now - lastT) / 1000 / 1000 / 1000 ≥ interval) ∧
    (∀ b ∈ ttlSweepsAux interval t0 ts, b = false) := by
  refine ⟨rfl, ?_, ?_⟩
  · intro h
    simp only [ttlSwapStep, Bool.and_eq_true, decide_eq_true_eq] at h
    exact h.2
  · induction ts generalizing t0 with
    | nil => intro b hb; simp [ttlSweepsAux] at hb
    | cons t ts' ih =>
        cases hchain with
        | cons hr hc =>
            intro b hb
            simp only [ttlSweepsAux, List.mem_cons] at hb
            rcases hb with hb | hb
            · subst hb
              simp only [ttlSwapStep, Bool.and_eq_false_iff, decide_eq_false_iff_not]
              right
              omega
            · exact ih t hc b hb

/-- Witness instantiating `C10_prune_clock` at a concrete stream. -/
theorem C10_prune_clock_witness :
    (ttlSwapStep 0 (20 * 10 ^ 9) 10).2 = 20 * 10 ^ 9 ∧
    ((ttlSwapStep 0 (20 * 10 ^ 9) 10).1 = true →
      (20 * 10 ^ 9 - 0) / 1000 / 1000 / 1000 ≥ 10) ∧
    (∀ b ∈ ttlSweepsAux 10 (20 * 10 ^ 9) [21 * 10 ^ 9], b = false) :=
  C10_prune_clock 0 (20 * 10 ^ 9) 10 (20 * 10 ^ 9) [21 * 10 ^ 9]
    (List.Chain.cons (by decide) List.Chain.nil)

theorem pruneFsGo_succ (delOk : String → Bool) (size limit fuel freed : Nat)
    (cache : List FsCacheEntry) (hashes : List Nat) :
    pruneFsGo delOk size limit (fuel + 1) freed cache hashes =
      if usub size freed > limit then
        match minByAtime cache with
        | none => (cache, freed, hashes)
        | some e =>
            if delOk e.path then
              pruneFsGo delOk size limit fuel (freed + e.size)
                (eraseKey cache (entryKey e)) (e.keyHash :: hashes)
            else (cache, freed, hashes)
      else (cache, freed, hashes) := rfl

/-- Claim C3: while the aggregate filesystem-cache size exceeds the
limit the pruner evicts the entry with the smallest atime — its file
deleted, its map entry removed, its size subtracted from the aggregate
counter — a failed deletion aborts the phase leaving cache and
accounting unchanged, and with two entries of atimes `t1 < t2` and an
overflow requiring exactly one eviction, the `t1` entry is the one
evicted (in either iteration order). -/
theorem C3_size_cap_eviction (delOk : String → Bool) (size limit : Nat)
    (e1 e2 : FsCacheEntry) (cache : List FsCacheEntry) (e : FsCacheEntry)
    (h12 : e1.atime < e2.atime) (hsz : limit < size)
    (hone : size - e1.size ≤ limit) (hle : e1.size ≤ size)
    (hdel : delOk e1.path = true) (hkey : entryKey e1 ≠ entryKey e2)
    (hmin : minByAtime cache = some e) (hdelf : delOk e.path = false) :
    pruneFsPhase delOk size limit [e1, e2] =
      ([e2], size - e1.size, [e1.keyHash]) ∧
    pruneFsPhase delOk size limit [e2, e1] =
      ([e2], size - e1.size, [e1.keyHash]) ∧
    pruneFsPhase delOk size limit cache = (cache, size, []) := by
  have hg1 : usub size 0 > limit := by rw [usub_zero]; exact hsz
  have hg2 : ¬ usub size (0 + e1.size) > limit := by
    rw [Nat.zero_add, usub_of_le size e1.size hle]
    omega
  have hfin : usub size (0 + e1.size) = size - e1.size := by
    rw [Nat.zero_add, usub_of_le size e1.size hle]
  refine ⟨?_, ?_, ?_⟩
  · have hm12 : minByAtime [e1, e2] = some e1 := by
      simp only [minByAtime, List.foldl_cons, List.foldl_nil, Option.some_inj]
      rw [if_neg (by omega)]
    have her : eraseKey [e1, e2] (entryKey e1) = [e2] := by
      simp [eraseKey]
    simp only [pruneFsPhase]
    rw [show ([e1, e2] : List FsCacheEntry).length = 1 + 1 from rfl]
    rw [pruneFsGo_succ, if_pos hg1, hm12]
    simp only [hdel, if_true, her]
    rw [pruneFsGo_succ, if_neg hg2]
    simp only [hfin]
  · have hm21 : minByAtime [e2, e1] = some e1 := by
      simp only [minByAtime, List.foldl_cons, List.foldl_nil, Option.some_inj]
      rw [if_pos h12]
    have her : eraseKey [e2, e1] (entryKey e1) = [e2] := by
      simp only [eraseKey]
      rw [if_neg (fun hc => hkey hc.symm)]
      simp
    simp only [pruneFsPhase]
    rw [show ([e2, e1] : List FsCacheEntry).length = 1 + 1 from rfl]
    rw [pruneFsGo_succ, if_pos hg1, hm21]
    simp only [hdel, if_true, her]
    rw [pruneFsGo_succ, if_neg hg2]
    simp only [hfin]
  · have hne : cache ≠ [] := by
      rintro rfl
      simp [minByAtime] at hmin
    obtain ⟨n, hn⟩ : ∃ n, cache.length = n + 1 := by
      cases hc : cache with
      | nil => exact absurd hc hne
      | cons a es => exact ⟨es.length, by simp⟩
    simp only [pruneFsPhase, hn]
    rw [pruneFsGo_succ, if_pos hg1, hmin]
    simp [hdelf, usub_zero]

/-- Witness instantiating `C3_size_cap_eviction` at concrete entries. -/
theorem C3_size_cap_eviction_witness :
    pruneFsPhase (fun s => decide (s ≠ "bad")) 10 5
      [{ keyHash := 1, keyEnc := "br", path := "pa", present := true,
         size := 6, atime := 5 },
       { keyHash := 2, keyEnc := "br", path := "pb", present := true,
         size := 4, atime := 9 }] =
      ([{ keyHash := 2, keyEnc := "br", path := "pb", present := true,
          size := 4, atime := 9 }], 10 - 6, [1]) ∧
    pruneFsPhase (fun s => decide (s ≠ "bad")) 10 5
      [{ keyHash := 2, keyEnc := "br", path := "pb", present := true,
         size := 4, atime := 9 },
       { keyHash := 1, keyEnc := "br", path := "pa", present := true,
         size := 6, atime := 5 }] =
      ([{ keyHash := 2, keyEnc := "br", path := "pb", present := true,
          size := 4, atime := 9 }], 10 - 6, [1]) ∧
    pruneFsPhase (fun s => decide (s ≠ "bad")) 10 5
      [{ keyHash := 3, keyEnc := "gzip", path := "bad", present := true,
         size := 7, atime := 2 }] =
      ([{ keyHash := 3, keyEnc := "gzip", path := "bad", present := true,
          size := 7, atime := 2 }], 10, []) :=
  C3_size_cap_eviction (fun s => decide (s ≠ "bad")) 10 5
    { keyHash := 1, keyEnc := "br", path := "pa", present := true,
      size := 6, atime := 5 }
    { keyHash := 2, keyEnc := "br", path := "pb", present := true,
      size := 4, atime := 9 }
    [{ keyHash := 3, keyEnc := "gzip", path := "bad", present := true,
       size := 7, atime := 2 }]
    { keyHash := 3, keyEnc := "gzip", path := "bad", present := true,
      size := 7, atime := 2 }
    (by decide) (by decide) (by decide) (by decide) (by decide) (by decide)
    (by decide) (by decide)

/-- Claim C4 (counterexample): the claim says the rejected sentinel
"may be removed by the TTL sweep", but the sweep's retention test
keeps an entry whose atime is `u64::MAX` for every possible sweep
time and TTL, so no TTL sweep ever removes the sentinel. -/
theorem C4_ttl_never_removes_cex :
    ¬ ∃ start tlimit, start < U64MOD ∧ ttlKeep uMAX start tlimit = false := by
  rintro ⟨s, l, hs, hk⟩
  unfold ttlKeep uMAX U64MOD at *
  simp only [Bool.or_eq_false_iff, decide_eq_false_iff_not] at hk
  omega

/-- Claim C4 (amended): the rejected-sentinel entry inserted after a
failed encoding attempt has atime `u64::MAX` and size 0; the LRU
size-cap phase never evicts it (under the cache invariants: unique
keys, present entries carry clock atimes below `u64::MAX`, non-present
entries are sentinels, and the aggregate counter equals the sum of
present sizes); and the TTL sweep never removes it either (its
retention test keeps any `u64::MAX` atime for every sweep time and
TTL). -/
theorem C4_rejected_sentinel (keyHash : Nat) (keyEnc : String)
    (delOk : String → Bool) (size limit : Nat) (cache : List FsCacheEntry)
    (e : FsCacheEntry) (start tlimit : Nat)
    (hnd : (cache.map entryKey).Nodup)
    (hpres : ∀ x ∈ cache, x.present = true → x.atime < uMAX)
    (habs : ∀ x ∈ cache, x.present = false → x.atime = uMAX)
    (hsz : size = sumPresent cache)
    (he : e ∈ cache) (hmax : e.atime = uMAX)
    (hstart : start < U64MOD) :
    ((rejectSentinel keyHash keyEnc).atime = uMAX ∧
     (rejectSentinel keyHash keyEnc).size = 0 ∧
     insertRejected cache keyHash keyEnc =
       rejectSentinel keyHash keyEnc :: cache) ∧
    e ∈ (pruneFsPhase delOk size limit cache).1 ∧
    ttlKeep uMAX start tlimit = true := by
  refine ⟨⟨rfl, rfl, rfl⟩, ?_, ?_⟩
  · simp only [pruneFsPhase]
    exact pruneGo_keeps_max delOk size limit cache.length 0 cache []
      hnd hpres habs (by omega) e he hmax
  · unfold ttlKeep uMAX U64MOD at *
    simp only [Bool.or_eq_true, decide_eq_true_eq]
    omega

/-- Witness instantiating `C4_rejected_sentinel` with a cache holding
one present entry and one sentinel. -/
theorem C4_rejected_sentinel_witness :
    ((rejectSentinel 9 "gzip").atime = uMAX ∧
     (rejectSentinel 9 "gzip").size = 0 ∧
     insertRejected
       [{ keyHash := 1, keyEnc := "br", path := "pa", present := true,
          size := 5, atime := 3 },
        rejectSentinel 7 "br"] 9 "gzip" =
       rejectSentinel 9 "gzip" ::
         [{ keyHash := 1, keyEnc := "br", path := "pa", present := true,
            size := 5, atime := 3 },
          rejectSentinel 7 "br"]) ∧
    rejectSentinel 7 "br" ∈
      (pruneFsPhase (fun _ => true) 5 2
        [{ keyHash := 1, keyEnc := "br", path := "pa", present := true,
           size := 5, atime := 3 },
         rejectSentinel 7 "br"]).1 ∧
    ttlKeep uMAX 0 11 = true :=
  C4_rejected_sentinel 9 "gzip" (fun _ => true) 5 2
    [{ keyHash := 1, keyEnc := "br", path := "pa", present := true,
       size := 5, atime := 3 },
     rejectSentinel 7 "br"]
    (rejectSentinel 7 "br") 0 11
    (by decide) (by decide) (by decide) (by decide) (by decide) (by decide)
    (by decide)

/-- Claim C5: with per-path auth policies present, the policy applied
is the one keyed by the longest matching prefix of the stripped URL
path along `/` boundaries (the loop's candidate chain); with no match
the global policy applies; an empty effective policy passes the
request through; and with policies on `a` and `a/b`, a request to
`/a/b/c` is validated against the `a/b` credentials. -/
theorem C5_auth_longest_match (m : AuthMap) (global v : Option Cred)
    (url k : PathStr)
    (hm : m ≠ [])
    (hk : k ∈ authChain (stripTrail (stripLead url)))
    (hfind : mapFind m k = some v)
    (hmax : ∀ q ∈ authChain (stripTrail (stripLead url)),
      mapFind m q ≠ none → q.length ≤ k.length) :
    effectiveAuth m global url = v ∧
    (∀ (m2 : AuthMap) (g2 : Option Cred) (u2 : PathStr)
       (creds : Option (String × Option String)),
       effectiveAuth m2 g2 u2 = none →
       verifyAuth m2 g2 u2 creds = AuthResult.pass) ∧
    (∀ (m2 : AuthMap) (g2 : Option Cred) (u2 : PathStr),
       (∀ q ∈ authChain (stripTrail (stripLead u2)), mapFind m2 q = none) →
       effectiveAuth m2 g2 u2 = g2) ∧
    (effectiveAuth mapExample none ("/a/b/c".data) = some credAB ∧
     verifyAuth mapExample none ("/a/b/c".data)
       (some ("userAB", some "pwAB")) = AuthResult.pass) := by
  refine ⟨?_, ?_, ?_, by decide, by decide⟩
  · unfold effectiveAuth
    rw [if_neg hm]
    exact authLoop_longest m global (stripTrail (stripLead url)) k v hk hfind hmax
  · intro m2 g2 u2 creds h
    unfold verifyAuth
    rw [h]
  · intro m2 g2 u2 hnone
    unfold effectiveAuth
    by_cases hm2 : m2 = []
    · rw [if_pos hm2]
    · rw [if_neg hm2]
      exact authLoop_none m2 g2 (stripTrail (stripLead u2)) hnone

/-- Witness instantiating `C5_auth_longest_match` at the
specification's example. -/
theorem C5_auth_longest_match_witness :
    effectiveAuth mapExample none ("/a/b/c".data) = some credAB ∧
    verifyAuth mapExample none ("/a/b/c".data)
      (some ("userAB", some "pwAB")) = AuthResult.pass :=
  ⟨(C5_auth_longest_match mapExample none (some credAB) ("/a/b/c".data)
      ("a/b".data) (by decide) (by decide) (by decide) (by decide)).1,
   (C5_auth_longest_match mapExample none (some credAB) ("/a/b/c".data)
      ("a/b".data) (by decide) (by decide) (by decide) (by decide)).2.2.2.2⟩

theorem find?_append_of_some {α : Type} (p : α → Bool) (l1 l2 : List α)
    (v : α) (h : l1.find? p = some v) : (l1 ++ l2).find? p = some v := by
  induction l1 with
  | nil => simp at h
  | cons a l ih =>
      cases hp : p a with
      | true =>
          rw [List.find?_cons_of_pos l hp] at h
          rw [List.cons_append, List.find?_cons_of_pos _ hp]
          exact h
      | false =>
          rw [List.find?_cons_of_neg l (by simp [hp])] at h
          rw [List.cons_append, List.find?_cons_of_neg _ (by simp [hp])]
          exact ih h

theorem getHeader_decorate_none (webdav : Bool) (extra : List (String × String))
    (r : Resp) (name : String)
    (hn : ∀ hv ∈ extra, hv.1 ≠ name) (hd : name ≠ "DAV")
    (hr : r.headers.find? (fun h => h.1 = name) = none) :
    getHeader (decorateResp webdav extra r) name = none := by
  unfold getHeader decorateResp
  simp only []
  have hextra : extra.find? (fun h => decide (h.1 = name)) = none := by
    rw [List.find?_eq_none]
    intro x hx
    simp only [decide_eq_true_eq]
    exact hn x hx
  have h1 : (r.headers ++ (if webdav = true then [("DAV", "1")] else
      [])).find? (fun h => decide (h.1 = name)) = none := by
    rw [find?_append_of_none _ _ _ hr]
    cases webdav with
    | false => rfl
    | true =>
        rw [if_pos rfl, List.find?_cons_of_neg _ (by
          simp only [decide_eq_true_eq]
          exact fun hc => hd hc.symm)]
        rfl
  rw [find?_append_of_none _ _ _ h1, hextra]
  rfl

theorem getHeader_decorate_some (webdav : Bool) (extra : List (String × String))
    (r : Resp) (name : String) (v : String × String)
    (hr : r.headers.find? (fun h => h.1 = name) = some v) :
    getHeader (decorateResp webdav extra r) name = some v.2 := by
  unfold getHeader decorateResp
  simp only []
  rw [find?_append_of_some _ _ _ v (find?_append_of_some _ _ _ v hr)]
  rfl

theorem genResp_shape (hash : String → String) (encodeStr : String → Option String)
    (genLimit : Nat) (cache : List GenCacheEntry) (now : Nat)
    (isGetOrHead : Bool) (inm : InmHeader) (encoding : Option String)
    (st : Nat) (resp : String) (hst : st ≠ 200) :
    (genRespEncoding hash encodeStr genLimit cache now isGetOrHead inm encoding
      st resp).1.status = st ∧
    (genRespEncoding hash encodeStr genLimit cache now isGetOrHead inm encoding
      st resp).1.headers.find? (fun h => h.1 = "Allow") = none ∧
    (genRespEncoding hash encodeStr genLimit cache now isGetOrHead inm encoding
      st resp).1.headers.find? (fun h => h.1 = "Content-Type") =
      some ("Content-Type", "text/html; charset=utf-8") ∧
    (encoding = none →
      (genRespEncoding hash encodeStr genLimit cache now isGetOrHead inm
        encoding st resp).1.body = resp) := by
  have hbranch : ∀ (goal : Resp → Prop),
      (∀ etag body,
        goal { status := st,
               headers := [("Server", "http"), ("ETag", etag),
                           ("Content-Type", "text/html; charset=utf-8")],
               body := body }) →
      (∀ enc etag body,
        goal { status := st,
               headers := [("Server", "http"), ("Content-Encoding", enc),
                           ("ETag", etag),
                           ("Content-Type", "text/html; charset=utf-8")],
               body := body }) →
      goal (genRespEncoding hash encodeStr genLimit cache now isGetOrHead inm
        encoding st resp).1 := by
    intro goal hplain henc
    unfold genRespEncoding
    rw [if_neg (fun hc => hst hc.1)]
    cases encoding with
    | none => exact hplain _ _
    | some enc =>
        cases hg : genFind cache (hash resp) enc with
        | some e => simp only [hg]; exact henc _ _ _
        | none =>
            simp only [hg]
            cases hes : encodeStr resp with
            | some encd =>
                simp only [hes]
                by_cases hlen : encd.length ≤ genLimit
                · rw [if_pos hlen]; exact henc _ _ _
                · rw [if_neg hlen]; exact henc _ _ _
            | none => simp only [hes]; exact hplain _ _
  refine ⟨?_, ?_, ?_, ?_⟩
  · exact hbranch (fun r => r.status = st) (fun _ _ => rfl) (fun _ _ _ => rfl)
  · exact hbranch
      (fun r => r.headers.find? (fun h => h.1 = "Allow") = none)
      (fun _ _ => by simp [List.find?]) (fun _ _ _ => by simp [List.find?])
  · exact hbranch
      (fun r => r.headers.find? (fun h => h.1 = "Content-Type") =
        some ("Content-Type", "text/html; charset=utf-8"))
      (fun _ _ => by simp [List.find?]) (fun _ _ _ => by simp [List.find?])
  · intro he
    subst he
    unfold genRespEncoding
    rw [if_neg (fun hc => hst hc.1)]

/-- Claim C6 (counterexample): the claim says the 501 response for an
unknown or disabled-WebDAV method carries an `Allow` header; the
response built by `handle_bad_method` carries none (the allowed set
appears only in the HTML body). -/
theorem C6_no_allow_header_cex :
    routesToBadMethod false (Method.ext "PROPFIND") = true ∧
    (badMethodResp constHash encNever 1000 [] 0 InmHeader.absent none
      false false [] "PROPFIND").status = 501 ∧
    getHeader (badMethodResp constHash encNever 1000 [] 0 InmHeader.absent none
      false false [] "PROPFIND") "Allow" = none := by
  decide

/-- Claim C6 (amended): every request whose method is unknown, or is
WebDAV-specific while WebDAV is disabled, receives status 501 with a
`text/html` body that lists the currently allowed method set in its
final paragraph; no `Allow` header is set on the response (given the
configured additional headers do not themselves add one). -/
theorem C6_bad_method_response (hash : String → String)
    (encodeStr : String → Option String) (genLimit : Nat)
    (cache : List GenCacheEntry) (now : Nat) (inm : InmHeader)
    (encoding : Option String) (webdav writes : Bool)
    (extra : List (String × String)) (m : Method) (methodName : String)
    (hbad : routesToBadMethod webdav m = true)
    (hextra : ∀ hv ∈ extra, hv.1 ≠ "Allow") :
    handleIfBadMethod hash encodeStr genLimit cache now inm encoding webdav
      writes extra m methodName =
      some (badMethodResp hash encodeStr genLimit cache now inm encoding
        webdav writes extra methodName) ∧
    (badMethodResp hash encodeStr genLimit cache now inm encoding webdav
      writes extra methodName).status = 501 ∧
    getHeader (badMethodResp hash encodeStr genLimit cache now inm encoding
      webdav writes extra methodName) "Allow" = none ∧
    getHeader (badMethodResp hash encodeStr genLimit cache now inm encoding
      webdav writes extra methodName) "Content-Type" =
      some "text/html; charset=utf-8" ∧
    (encoding = none →
      (badMethodResp hash encodeStr genLimit cache now inm encoding webdav
        writes extra methodName).body =
        htmlResponse ["501 Not Implemented",
          "This operation was not implemented.",
          "<p>Unsupported request method: " ++ methodName ++
            ".<br />\nSupported methods: " ++
            commaList (allowedMethods webdav writes) ++ ".</p>"]) := by
  have hshape := genResp_shape hash encodeStr genLimit cache now false inm
    encoding 501
    (htmlResponse ["501 Not Implemented", "This operation was not implemented.",
      "<p>Unsupported request method: " ++ methodName ++
        ".<br />\nSupported methods: " ++
        commaList (allowedMethods webdav writes) ++ ".</p>"])
    (by omega)
  refine ⟨?_, ?_, ?_, ?_, ?_⟩
  · unfold handleIfBadMethod badMethodResp
    rw [hbad]
    rfl
  · unfold badMethodResp decorateResp
    exact hshape.1
  · exact getHeader_decorate_none webdav extra _ "Allow" hextra (by decide)
      hshape.2.1
  · exact getHeader_decorate_some webdav extra _ "Content-Type" _ hshape.2.2.1
  · intro he
    unfold badMethodResp decorateResp
    exact hshape.2.2.2 he

/-- Witness instantiating `C6_bad_method_response` at a concrete
disabled-WebDAV request. -/
theorem C6_bad_method_response_witness :
    handleIfBadMethod constHash encNever 1000 [] 0 InmHeader.absent none
      false false [] (Method.ext "PROPFIND") "PROPFIND" =
      some (badMethodResp constHash encNever 1000 [] 0 InmHeader.absent none
        false false [] "PROPFIND") ∧
    (badMethodResp constHash encNever 1000 [] 0 InmHeader.absent none
      false false [] "PROPFIND").status = 501 ∧
    getHeader (badMethodResp constHash encNever 1000 [] 0 InmHeader.absent none
      false false [] "PROPFIND") "Allow" = none ∧
    getHeader (badMethodResp constHash encNever 1000 [] 0 InmHeader.absent none
      false false [] "PROPFIND") "Content-Type" =
      some "text/html; charset=utf-8" ∧
    ((none : Option String) = none →
      (badMethodResp constHash encNever 1000 [] 0 InmHeader.absent none
        false false [] "PROPFIND").body =
        htmlResponse ["501 Not Implemented",
          "This operation was not implemented.",
          "<p>Unsupported request method: " ++ "PROPFIND" ++
            ".<br />\nSupported methods: " ++
            commaList (allowedMethods false false) ++ ".</p>"]) :=
  C6_bad_method_response constHash encNever 1000 [] 0 InmHeader.absent none
    false false [] (Method.ext "PROPFIND") "PROPFIND" (by decide)
    (by intro hv h; simp at h)

/-- Claim C7 (counterexample): a PUT that passes every rejection check
(writes enabled, target not a directory, no file ancestor, no
`Content-Range`, clean decode) but resolves through a symlink while
symlink-following is disabled returns 201 even though the resolved
target already exists — the claim says an existing target yields
204. -/
theorem C7_illegal_put_201_cex :
    statusOf (handlePut fsLink cfgPutNoFollow ["link"] false none none) =
      some 201 ∧
    parseRequestedPath fsLink cfgPutNoFollow.root true ["link"] =
      (toComps ["srv", "www", "file"], true, false) ∧
    pathExists fsLink (toComps ["srv", "www", "file"]) = true := by
  decide

/-- Claim C7 (amended): a PUT that passes the rejection checks (writes
enabled, target not a directory, no parent an existing regular file,
no `Content-Range`, URL decodes cleanly) and whose resolved path is
moreover legal (not an unfollowed symlink, not a sandbox-escaping
symlink) responds 201 if the target did not previously exist and 204
if it did; illegal paths always receive 201. -/
theorem C7_put_status (fs : Fsys) (cfg : PutCfg) (segs : List String)
    (p : List Comp) (sk : Bool) (xlm xoc : Option Nat)
    (hw : cfg.writesEnabled = true)
    (hparse : parseRequestedPath fs cfg.root true segs = (p, sk, false))
    (hdir : ¬ statNode fs p = some FNode.dir)
    (hdet : detectFileAsDir fs p = false)
    (hillegal : ((sk && !cfg.followCfg) ||
      (sk && cfg.followCfg && cfg.sandbox &&
        !(isNonexistentDescendantOf fs p (toComps cfg.root)))) = false) :
    (pathExists fs p = true →
      statusOf (handlePut fs cfg segs false xlm xoc) = some 204) ∧
    (pathExists fs p = false →
      statusOf (handlePut fs cfg segs false xlm xoc) = some 201) := by
  constructor <;> intro hex <;>
    simp [handlePut, handlePutFile, statusOf, hw, hparse, hdir, hdet,
      hillegal, hex]

/-- Witness instantiating `C7_put_status` at a legal PUT over an
existing target. -/
theorem C7_put_status_witness :
    statusOf (handlePut fsLink cfgPutNoFollow ["file"] false none none) =
      some 204 :=
  (C7_put_status fsLink cfgPutNoFollow ["file"]
    (toComps ["srv", "www", "file"]) false none none (by decide) (by decide)
    (by decide) (by decide) (by decide)).1 (by decide)

/-- Claim C8: the stored mtime of a legal PUT comes from
`X-Last-Modified` interpreted as milliseconds since epoch; absent
that, from `X-OC-MTime` interpreted as seconds and multiplied by 1000
(wrapping `u64` arithmetic); when both are present `X-Last-Modified`
wins; the chosen value is applied to the target by `set_mtime`, and
absent both headers no mtime is set. -/
theorem C8_put_mtime (fs : Fsys) (cfg : PutCfg) (p : List Comp)
    (m s : Nat) (xoc : Option Nat) :
    putMtime (some m) xoc = some m ∧
    putMtime none (some s) = some (s * 1000 % U64MOD) ∧
    putMtime none none = none ∧
    FsOp.setMtime p m ∈ opsOf (handlePutFile cfg fs p true (some m) xoc) ∧
    FsOp.setMtime p (s * 1000 % U64MOD) ∈
      opsOf (handlePutFile cfg fs p true none (some s)) ∧
    (∀ op ∈ opsOf (handlePutFile cfg fs p true none none),
      ∀ q ms, op ≠ FsOp.setMtime q ms) := by
  refine ⟨rfl, rfl, rfl, ?_, ?_, ?_⟩
  · simp [handlePutFile, opsOf, putMtime, Option.orElse]
  · simp [handlePutFile, opsOf, putMtime, Option.orElse]
  · intro op hop q ms
    simp [handlePutFile, opsOf, putMtime, Option.orElse] at hop
    rcases hop with h | h | h | h | h <;> subst h <;> simp

/-- Claim C9: a PUT whose resolved target is an unfollowed or
sandbox-escaping symlink path creates and then removes only the
staging file under `writes/`, touches no path under the hosted root
(given the temp area lies outside it), sets no mtime, and still
returns 201 Created. -/
theorem C9_illegal_put_frame (fs : Fsys) (cfg : PutCfg) (segs : List String)
    (p : List Comp) (sk : Bool) (xlm xoc : Option Nat)
    (hw : cfg.writesEnabled = true)
    (hparse : parseRequestedPath fs cfg.root true segs = (p, sk, false))
    (hdir : ¬ statNode fs p = some FNode.dir)
    (hdet : detectFileAsDir fs p = false)
    (hillegal : ((sk && !cfg.followCfg) ||
      (sk && cfg.followCfg && cfg.sandbox &&
        !(isNonexistentDescendantOf fs p (toComps cfg.root)))) = true)
    (hw1 : (toComps cfg.root).isPrefixOf (toComps cfg.writesDir) = false)
    (hw2 : (toComps cfg.root).isPrefixOf
      (toComps cfg.writesDir ++ [lastComp p]) = false) :
    handlePut fs cfg segs false xlm xoc =
      PutOut.done 201
        [FsOp.ensureDir (toComps cfg.writesDir),
         FsOp.createFile (toComps cfg.writesDir ++ [lastComp p]),
         FsOp.removeFile (toComps cfg.writesDir ++ [lastComp p])] ∧
    (∀ op ∈ opsOf (handlePut fs cfg segs false xlm xoc),
      (toComps cfg.root).isPrefixOf (opPath op) = false ∧
      ∀ q ms, op ≠ FsOp.setMtime q ms) := by
  have h1 : handlePut fs cfg segs false xlm xoc =
      PutOut.done 201
        [FsOp.ensureDir (toComps cfg.writesDir),
         FsOp.createFile (toComps cfg.writesDir ++ [lastComp p]),
         FsOp.removeFile (toComps cfg.writesDir ++ [lastComp p])] := by
    simp [handlePut, handlePutFile, hw, hparse, hdir, hdet, hillegal]
  refine ⟨h1, ?_⟩
  rw [h1]
  intro op hop
  simp only [opsOf, List.mem_cons, List.not_mem_nil, or_false] at hop
  rcases hop with h | h | h <;> subst h
  · exact ⟨by simpa [opPath] using hw1, fun q ms => by simp⟩
  · exact ⟨by simpa [opPath] using hw2, fun q ms => by simp⟩
  · exact ⟨by simpa [opPath] using hw2, fun q ms => by simp⟩

/-- Witness instantiating `C9_illegal_put_frame` at a concrete
unfollowed-symlink PUT. -/
theorem C9_illegal_put_frame_witness :
    handlePut fsLink cfgPutNoFollow ["link"] false none none =
      PutOut.done 201
        [FsOp.ensureDir (toComps cfgPutNoFollow.writesDir),
         FsOp.createFile (toComps cfgPutNoFollow.writesDir ++
           [lastComp (toComps ["srv", "www", "file"])]),
         FsOp.removeFile (toComps cfgPutNoFollow.writesDir ++
           [lastComp (toComps ["srv", "www", "file"])])] ∧
    (∀ op ∈ opsOf (handlePut fsLink cfgPutNoFollow ["link"] false none none),
      (toComps cfgPutNoFollow.root).isPrefixOf (opPath op) = false ∧
      ∀ q ms, op ≠ FsOp.setMtime q ms) :=
  C9_illegal_put_frame fsLink cfgPutNoFollow ["link"]
    (toComps ["srv", "www", "file"]) true none none (by decide) (by decide)
    (by decide) (by decide) (by decide) (by decide) (by decide)
